import Mathlib

/-!
# A shallow embedding of the clog.h formatting core

The definitions below translate the internal functions of `clog.h`
(`_clog_append_str`, `_clog_append_int`, `_clog_basename`, `_clog_format`,
`_clog_log`, `clog_init_file`) into Lean.  C strings are `List Char`
(the bytes before the NUL terminator), the growable output buffer is a
record of its content, capacity and ownership tag, and `malloc`/`realloc`
are assumed to succeed, as the C code itself never checks their result.
Leading underscores of the C names are dropped where they would clash with
Lean conventions.
-/

namespace Clog

/-- The capacity-doubling loop of `_clog_append_str`:
`while (strlen(*dst) + strlen(src) >= new_size) { new_size *= 2; }`.
Here `need` stands for `strlen(*dst) + strlen(src)`.  The conjunct
`0 < cap` only makes the function total: the C loop would not terminate on
a zero capacity, and every actual call starts from a positive scratch
capacity. -/
def growCap (need cap : Nat) : Nat :=
  if h : 0 < cap ∧ cap ≤ need then growCap need (2 * cap) else cap
termination_by need + 1 - cap
decreasing_by omega

/-- The state of the growable output buffer of `_clog_format`:
`content` is the NUL-terminated string stored in `*dst`, `cap` is the
current allocation size (`cur_size`), and `onHeap` records whether `*dst`
has migrated away from the caller's scratch buffer (`*dst != orig_buf`). -/
structure CBuf where
  content : List Char
  cap : Nat
  onHeap : Bool
  deriving DecidableEq

/-- `_clog_append_str`: grow the capacity by repeated doubling until the
combined length fits strictly below it, migrate off the scratch buffer on
the first growth, and concatenate `src` onto the content. -/
def appendStr (b : CBuf) (src : List Char) : CBuf :=
  let newSize := growCap (b.content.length + src.length) b.cap
  { content := b.content ++ src
    cap := newSize
    onHeap := if newSize = b.cap then b.onHeap else true }

/-- The fold of `_clog_append_str` over a sequence of appended strings. -/
def appendAll (b : CBuf) : List (List Char) → CBuf
  | [] => b
  | s :: ss => appendAll (appendStr b s) ss

theorem growCap_spec (need : Nat) : ∀ cap : Nat, 0 < cap →
    need < growCap need cap ∧ (∃ i, growCap need cap = cap * 2 ^ i) ∧
    ∀ i, need < cap * 2 ^ i → growCap need cap ≤ cap * 2 ^ i := by
  intro cap
  induction cap using growCap.induct need with
  | case1 cap hc ih =>
    intro _
    have hrw : growCap need cap = growCap need (2 * cap) := by
      rw [growCap]; simp [hc]
    have h2 : 0 < 2 * cap := by omega
    obtain ⟨hgt, ⟨i, hi⟩, hmin⟩ := ih h2
    refine ⟨hrw ▸ hgt, ⟨i + 1, by rw [hrw, hi]; ring⟩, ?_⟩
    intro j hj
    match j with
    | 0 => simp at hj; omega
    | j + 1 =>
      have he : cap * 2 ^ (j + 1) = 2 * cap * 2 ^ j := by ring
      have h3 : need < 2 * cap * 2 ^ j := by omega
      have h4 := hmin j h3
      omega
  | case2 cap hc =>
    intro hpos
    have hrw : growCap need cap = cap := by
      rw [growCap]; simp [hc]
    have hlt : need < cap := by
      rcases Decidable.em (cap ≤ need) with h | h
      · exact absurd ⟨hpos, h⟩ hc
      · omega
    refine ⟨by rw [hrw]; exact hlt, ⟨0, by simp [hrw]⟩, ?_⟩
    intro i _
    have h1 : (1 : Nat) ≤ 2 ^ i := Nat.one_le_two_pow
    have h2 : cap * 1 ≤ cap * 2 ^ i := Nat.mul_le_mul (le_refl cap) h1
    omega

theorem appendStr_content (b : CBuf) (s : List Char) :
    (appendStr b s).content = b.content ++ s := rfl

theorem appendStr_cap (b : CBuf) (s : List Char) :
    (appendStr b s).cap = growCap (b.content.length + s.length) b.cap := rfl

/-- One step of the growth invariant: capacities stay on the doubling chain
from `C`, remain minimal for the current content, and strictly exceed the
content length. -/
theorem appendStr_spec (C : Nat) (b : CBuf) (s : List Char)
    (hchain : ∃ j, b.cap = C * 2 ^ j)
    (hmin : ∀ j, b.content.length < C * 2 ^ j → b.cap ≤ C * 2 ^ j)
    (hlen : b.content.length < b.cap) :
    (appendStr b s).content = b.content ++ s ∧
    (∃ j, (appendStr b s).cap = C * 2 ^ j) ∧
    (∀ j, (b.content ++ s).length < C * 2 ^ j →
      (appendStr b s).cap ≤ C * 2 ^ j) ∧
    (appendStr b s).content.length < (appendStr b s).cap := by
  obtain ⟨a, ha⟩ := hchain
  have hcap0 : 0 < b.cap := by omega
  obtain ⟨hgt, ⟨i, hi⟩, hgmin⟩ :=
    growCap_spec (b.content.length + s.length) b.cap hcap0
  refine ⟨rfl, ⟨a + i, ?_⟩, ?_, ?_⟩
  · rw [appendStr_cap, hi, ha]; ring
  · intro j hj
    rw [List.length_append] at hj
    rcases Nat.lt_or_ge (C * 2 ^ j) b.cap with hcase | hcase
    · rcases Nat.lt_or_ge b.content.length (C * 2 ^ j) with h | h
      · exact absurd (hmin j h) (by omega)
      · omega
    · rw [ha] at hcase
      have h2 : (2 : Nat) ^ a ≤ 2 ^ j := by
        have hC : 0 < C := by
          rcases Nat.eq_zero_or_pos C with h | h
          · rw [h] at ha; simp at ha; omega
          · exact h
        exact Nat.le_of_mul_le_mul_left hcase hC
      have haj : a ≤ j := (Nat.pow_le_pow_iff_right (by omega)).mp h2
      have hsplit : C * 2 ^ j = b.cap * 2 ^ (j - a) := by
        have hja : a + (j - a) = j := by omega
        rw [ha, mul_assoc, ← pow_add, hja]
      rw [appendStr_cap, hsplit]
      exact hgmin (j - a) (by rw [← hsplit]; omega)
  · rw [appendStr_content, appendStr_cap, List.length_append]
    exact hgt

/-- The growth invariant carried through any sequence of appends. -/
theorem appendAll_spec (C : Nat) (ss : List (List Char)) :
    ∀ b : CBuf, (∃ j, b.cap = C * 2 ^ j) →
    (∀ j, b.content.length < C * 2 ^ j → b.cap ≤ C * 2 ^ j) →
    b.content.length < b.cap →
    (appendAll b ss).content = b.content ++ ss.flatten ∧
    (∃ j, (appendAll b ss).cap = C * 2 ^ j) ∧
    (∀ j, (b.content ++ ss.flatten).length < C * 2 ^ j →
      (appendAll b ss).cap ≤ C * 2 ^ j) ∧
    (appendAll b ss).content.length < (appendAll b ss).cap := by
  induction ss with
  | nil => intro b h1 h2 h3; simpa [appendAll] using ⟨h1, h2, h3⟩
  | cons s ss ih =>
    intro b h1 h2 h3
    obtain ⟨hc, hch, hmn, hln⟩ := appendStr_spec C b s h1 h2 h3
    obtain ⟨ihc, ihch, ihmn, ihln⟩ := ih (appendStr b s) hch (by rw [hc]; exact hmn) hln
    refine ⟨?_, ihch, ?_, ihln⟩
    · rw [appendAll, ihc, hc, List.flatten_cons, List.append_assoc]
    · intro j hj
      rw [appendAll]
      apply ihmn
      rw [hc, List.flatten_cons, ← List.append_assoc] at *
      exact hj

/-- Claim C1: appending a sequence of strings into the growable buffer
(scratch capacity `C`) doubles the capacity exactly as needed: after the
whole sequence, producing total content length `L`, the buffer holds
exactly those `L` bytes and the capacity is the smallest value reachable
from `C` by repeated doubling that is at least `L + 1`. -/
theorem C1_buffer_growth (C : Nat) (hC : 0 < C) (ss : List (List Char)) :
    (appendAll ⟨[], C, false⟩ ss).content = ss.flatten ∧
    (∃ j, (appendAll ⟨[], C, false⟩ ss).cap = C * 2 ^ j) ∧
    ss.flatten.length + 1 ≤ (appendAll ⟨[], C, false⟩ ss).cap ∧
    ∀ j, ss.flatten.length + 1 ≤ C * 2 ^ j →
      (appendAll ⟨[], C, false⟩ ss).cap ≤ C * 2 ^ j := by
  have hmin0 : ∀ j, (([] : List Char)).length < C * 2 ^ j → C ≤ C * 2 ^ j := by
    intro j _
    have h1 : (1 : Nat) ≤ 2 ^ j := Nat.one_le_two_pow
    have h2 : C * 1 ≤ C * 2 ^ j := Nat.mul_le_mul (le_refl C) h1
    omega
  obtain ⟨h1, h2, h3, h4⟩ :=
    appendAll_spec C ss ⟨[], C, false⟩ ⟨0, by simp⟩ hmin0 (by simpa using hC)
  simp only [List.nil_append] at h1 h3
  refine ⟨h1, h2, ?_, ?_⟩
  · rw [h1] at h4
    omega
  · intro j hj
    exact h3 j (by omega)

/-- Witness for C1: two appends of three bytes each onto a scratch buffer
of capacity 4 end with content `"abcdef"` and capacity 8. -/
theorem C1_buffer_growth_witness :
    0 < 4 ∧
    ((appendAll ⟨[], 4, false⟩ [['a', 'b', 'c'], ['d', 'e', 'f']]).content =
        [['a', 'b', 'c'], ['d', 'e', 'f']].flatten ∧
      (∃ j, (appendAll ⟨[], 4, false⟩ [['a', 'b', 'c'], ['d', 'e', 'f']]).cap =
        4 * 2 ^ j) ∧
      [['a', 'b', 'c'], ['d', 'e', 'f']].flatten.length + 1 ≤
        (appendAll ⟨[], 4, false⟩ [['a', 'b', 'c'], ['d', 'e', 'f']]).cap ∧
      ∀ j, [['a', 'b', 'c'], ['d', 'e', 'f']].flatten.length + 1 ≤ 4 * 2 ^ j →
        (appendAll ⟨[], 4, false⟩ [['a', 'b', 'c'], ['d', 'e', 'f']]).cap ≤
          4 * 2 ^ j) :=
  ⟨by decide, C1_buffer_growth 4 (by decide) [['a', 'b', 'c'], ['d', 'e', 'f']]⟩

/-- Decimal digits of a natural number, most significant first, matching
how `snprintf` with `"%ld"` renders the absolute value. -/
def natDec (n : Nat) : List Char :=
  if n < 10 then [Nat.digitChar n]
  else natDec (n / 10) ++ [Nat.digitChar (n % 10)]
termination_by n
decreasing_by exact Nat.div_lt_self (by omega) (by omega)

/-- The full decimal rendering of a signed value by
`snprintf(buf, 40, "%ld", d)`, sign included.  The value is modelled as a
mathematical integer; on any concrete platform `long int` is a bounded
subrange of it. -/
def intDec (d : Int) : List Char :=
  if d < 0 then '-' :: natDec d.natAbs else natDec d.toNat

/-- `_clog_append_int`: `snprintf` reports the length the decimal
rendering requires; if that is at least the 40-byte scratch size the
substitution is skipped and the buffer is returned untouched, otherwise
the rendering is appended through `_clog_append_str`. -/
def appendInt (b : CBuf) (d : Int) : CBuf :=
  if 40 ≤ (intDec d).length then b else appendStr b (intDec d)

theorem natDec_len_pos (n : Nat) : 1 ≤ (natDec n).length := by
  rw [natDec]
  split <;> simp

theorem natDec_len_lower : ∀ k n : Nat, 10 ^ k ≤ n → k + 1 ≤ (natDec n).length := by
  intro k
  induction k with
  | zero => intro n _; exact natDec_len_pos n
  | succ k ih =>
    intro n hn
    have h10 : 10 ≤ n := by
      have h : 10 ≤ 10 ^ (k + 1) := by
        calc 10 = 10 ^ 1 := by norm_num
        _ ≤ 10 ^ (k + 1) := Nat.pow_le_pow_right (by norm_num) (by omega)
      omega
    rw [natDec, if_neg (by omega)]
    have hdiv : 10 ^ k ≤ n / 10 := by
      rw [Nat.le_div_iff_mul_le (by norm_num)]
      calc 10 ^ k * 10 = 10 ^ (k + 1) := by ring
      _ ≤ n := hn
    have h := ih (n / 10) hdiv
    simp
    omega

/-- Claim C6: an integer whose decimal rendering needs 40 or more
characters is silently skipped by `_clog_append_int`, leaving the buffer
(content, capacity and ownership tag) exactly unchanged; a value whose
rendering fits below the bound is appended as its exact decimal string. -/
theorem C6_append_int_bound (b : CBuf) (d : Int) :
    (40 ≤ (intDec d).length → appendInt b d = b) ∧
    ((intDec d).length < 40 →
      (appendInt b d).content = b.content ++ intDec d ∧
      (appendInt b d).cap =
        growCap (b.content.length + (intDec d).length) b.cap) := by
  constructor
  · intro h
    rw [appendInt, if_pos h]
  · intro h
    rw [appendInt, if_neg (by omega)]
    exact ⟨appendStr_content b (intDec d), appendStr_cap b (intDec d)⟩

/-- Witness for C6: `10 ^ 39` needs 40 decimal digits and is skipped with
the buffer untouched, while `123` is appended as `"123"`. -/
theorem C6_append_int_bound_witness :
    (40 ≤ (intDec (10 ^ 39)).length ∧
      appendInt ⟨['a'], 4096, false⟩ (10 ^ 39) = ⟨['a'], 4096, false⟩) ∧
    ((intDec 123).length < 40 ∧
      (appendInt ⟨['a'], 4096, false⟩ 123).content = ['a'] ++ intDec 123) := by
  have h1 : 40 ≤ (intDec (10 ^ 39)).length := by
    have h : intDec (10 ^ 39) = natDec ((10 : Int) ^ 39).toNat := by
      rw [intDec, if_neg (by norm_num)]
    rw [h]
    have h2 : ((10 : Int) ^ 39).toNat = 10 ^ 39 := by
      norm_num
      rfl
    rw [h2]
    exact natDec_len_lower 39 (10 ^ 39) (le_refl _)
  have h2 : (intDec 123).length < 40 := by
    have h : intDec 123 = ['1', '2', '3'] := by
      rw [intDec, if_neg (by norm_num)]
      rw [natDec]; norm_num
      rw [natDec]
      rw [natDec]
      decide
    rw [h]
    decide
  exact ⟨⟨h1, (C6_append_int_bound _ _).1 h1⟩,
    ⟨h2, ((C6_append_int_bound _ _).2 h2).1⟩⟩

/-- The suffix of `s` strictly after the last occurrence of `c`, or `s`
itself when `c` does not occur: this is the pointer `strrchr(path, c) + 1`
that `_clog_basename` advances to when `strrchr` finds a match. -/
def afterLastSep (c : Char) : List Char → List Char
  | [] => []
  | a :: rest =>
      if c ∈ rest then afterLastSep c rest
      else if a = c then rest
      else a :: rest

/-- `_clog_basename`: keep only what follows the last forward slash, and
on Windows builds (`win = true`, `_WIN32` defined) additionally what
follows the last backslash of the remainder. -/
def clog_basename (win : Bool) (path : List Char) : List Char :=
  if win then afterLastSep '\\' (afterLastSep '/' path)
  else afterLastSep '/' path

theorem afterLastSep_isSuffix (c : Char) :
    ∀ s : List Char, (afterLastSep c s).IsSuffix s := by
  intro s
  induction s with
  | nil => simp [afterLastSep]
  | cons a rest ih =>
    rw [afterLastSep]
    split
    · exact ih.trans (List.suffix_cons a rest)
    · split
      · exact List.suffix_cons a rest
      · exact List.suffix_refl _

theorem afterLastSep_not_mem (c : Char) :
    ∀ s : List Char, c ∉ afterLastSep c s := by
  intro s
  induction s with
  | nil => simp [afterLastSep]
  | cons a rest ih =>
    rw [afterLastSep]
    split
    · exact ih
    · split
      · assumption
      · intro hmem
        rcases List.mem_cons.mp hmem with h | h
        · exact absurd h.symm (by assumption)
        · exact absurd h (by assumption)

/-- Claim C7: the `%f` value is the substring of the source path after the
last path separator — after the last `'/'` always, and additionally after
the last `'\'` on Windows — so no directory component ever appears;
`"/a/b/c.ext"` renders as `"c.ext"`, as does `"a\b\c.ext"` on Windows. -/
theorem C7_basename (win : Bool) (p : List Char) :
    (clog_basename win p).IsSuffix p ∧
    '/' ∉ clog_basename win p ∧
    (win = true → '\\' ∉ clog_basename win p) ∧
    clog_basename false ['/', 'a', '/', 'b', '/', 'c', '.', 'e', 'x', 't'] =
      ['c', '.', 'e', 'x', 't'] ∧
    clog_basename true ['a', '\\', 'b', '\\', 'c', '.', 'e', 'x', 't'] =
      ['c', '.', 'e', 'x', 't'] := by
  refine ⟨?_, ?_, ?_, by decide, by decide⟩
  · cases win
    · simpa [clog_basename] using afterLastSep_isSuffix '/' p
    · simp only [clog_basename, if_pos]
      exact (afterLastSep_isSuffix '\\' _).trans (afterLastSep_isSuffix '/' p)
  · cases win
    · simpa [clog_basename] using afterLastSep_not_mem '/' p
    · simp only [clog_basename, if_pos]
      intro hmem
      exact afterLastSep_not_mem '/' p
        ((afterLastSep_isSuffix '\\' _).subset hmem)
  · intro hwin
    cases win
    · cases hwin
    · simp only [clog_basename, if_pos]
      exact afterLastSep_not_mem '\\' _

/-- Witness for C7: on the Windows build, the rendered name of
`"a\b"` contains no backslash. -/
theorem C7_basename_witness :
    true = true ∧ '\\' ∉ clog_basename true ['a', '\\', 'b'] :=
  ⟨rfl, (C7_basename true ['a', '\\', 'b']).2.2.1 rfl⟩

/-- The per-call context handed to `_clog_format`: source file, line,
function, module, resolved level label, and the rendered user message. -/
structure LogCtx where
  sfile : List Char
  sline : Int
  sfunction : List Char
  smodule : List Char
  level : List Char
  message : List Char
  deriving DecidableEq

/-- The two states of the template scanner in `_clog_format`. -/
inductive ScanState
  | NORMAL
  | SUBST
  deriving DecidableEq

/-- One iteration of the `_clog_format` loop body on character `c`, for a
build without `CLOG_TIME_SUPPORT` (so `t`, `d` and `h` fall through the
`switch` like every other unrecognized selector and append nothing). -/
def formatStep (ctx : LogCtx) (st : ScanState) (c : Char) (b : CBuf) :
    ScanState × CBuf :=
  match st with
  | .NORMAL => if c = '%' then (.SUBST, b) else (.NORMAL, appendStr b [c])
  | .SUBST =>
      (.NORMAL,
        if c = '%' then appendStr b ['%']
        else if c = 'l' then appendStr b ctx.level
        else if c = 'e' then appendStr b ctx.smodule
        else if c = 'g' then appendStr b ctx.sfunction
        else if c = 'n' then appendInt b ctx.sline
        else if c = 'f' then appendStr b ctx.sfile
        else if c = 'm' then appendStr b ctx.message
        else b)

/-- The `for (i = 0; i < fmtlen; ++i)` loop of `_clog_format`. -/
def formatRun (ctx : LogCtx) : ScanState → List Char → CBuf → ScanState × CBuf
  | st, [], b => (st, b)
  | st, c :: rest, b =>
      formatRun ctx (formatStep ctx st c b).1 rest (formatStep ctx st c b).2

/-- The state transition of the scanner, which depends only on the
template character, never on the context or the buffer. -/
def scanStep (st : ScanState) (c : Char) : ScanState :=
  match st with
  | .NORMAL => if c = '%' then .SUBST else .NORMAL
  | .SUBST => .NORMAL

/-- The scanner state after consuming a list of template characters. -/
def scanRun : ScanState → List Char → ScanState
  | st, [] => st
  | st, c :: rest => scanRun (scanStep st c) rest

/-- `_clog_format` (build without `CLOG_TIME_SUPPORT`): normalize the
source file to its basename, start from an empty scratch buffer of
capacity `bufSize` (`result[0] = 0`), and run the two-state scan over the
whole template. -/
def clog_format (win : Bool) (ctx : LogCtx) (fmt : List Char)
    (bufSize : Nat) : CBuf :=
  (formatRun { ctx with sfile := clog_basename win ctx.sfile }
    .NORMAL fmt ⟨[], bufSize, false⟩).2

theorem formatStep_fst (ctx : LogCtx) (st : ScanState) (c : Char) (b : CBuf) :
    (formatStep ctx st c b).1 = scanStep st c := by
  cases st
  · rw [formatStep, scanStep]
    split <;> rfl
  · rfl

theorem formatRun_fst (ctx : LogCtx) :
    ∀ (fmt : List Char) (st : ScanState) (b : CBuf),
    (formatRun ctx st fmt b).1 = scanRun st fmt := by
  intro fmt
  induction fmt with
  | nil => intro st b; rfl
  | cons c rest ih =>
    intro st b
    rw [formatRun, scanRun, ← formatStep_fst ctx st c b]
    exact ih _ _

theorem formatRun_append (ctx : LogCtx) (l1 l2 : List Char) :
    ∀ (st : ScanState) (b : CBuf),
    formatRun ctx st (l1 ++ l2) b =
      formatRun ctx (formatRun ctx st l1 b).1 l2 (formatRun ctx st l1 b).2 := by
  induction l1 with
  | nil => intro st b; rfl
  | cons c rest ih =>
    intro st b
    rw [List.cons_append, formatRun, formatRun]
    exact ih _ _

theorem formatRun_literal (ctx : LogCtx) :
    ∀ (fmt : List Char) (b : CBuf), '%' ∉ fmt →
    (formatRun ctx .NORMAL fmt b).2.content = b.content ++ fmt := by
  intro fmt
  induction fmt with
  | nil => intro b _; simp [formatRun]
  | cons c rest ih =>
    intro b h
    have hc : ¬(c = '%') := fun he => h (he ▸ List.mem_cons_self c rest)
    have hr : '%' ∉ rest := fun hm => h (List.mem_cons_of_mem c hm)
    rw [formatRun]
    have hstep : formatStep ctx .NORMAL c b = (.NORMAL, appendStr b [c]) := by
      rw [formatStep, if_neg hc]
    rw [hstep]
    rw [ih (appendStr b [c]) hr, appendStr_content, List.append_assoc,
      List.singleton_append]

/-- Claim C8: a template that contains no `%` character expands, under
every context, to exactly itself, byte for byte. -/
theorem C8_literal_template (win : Bool) (ctx : LogCtx) (fmt : List Char)
    (B : Nat) (h : '%' ∉ fmt) :
    (clog_format win ctx fmt B).content = fmt := by
  rw [clog_format, formatRun_literal _ fmt _ h]
  rfl

/-- Witness for C8: the directive-free template `"hello\n"` expands to
itself. -/
theorem C8_literal_template_witness :
    '%' ∉ ['h', 'e', 'l', 'l', 'o', '\n'] ∧
    (clog_format false ⟨['a'], 1, ['f'], ['M'], ['E'], ['x']⟩
      ['h', 'e', 'l', 'l', 'o', '\n'] 4096).content =
      ['h', 'e', 'l', 'l', 'o', '\n'] :=
  ⟨by decide, C8_literal_template false ⟨['a'], 1, ['f'], ['M'], ['E'], ['x']⟩
    ['h', 'e', 'l', 'l', 'o', '\n'] 4096 (by decide)⟩

/-- Claim C4: when the scan of a template ends in literal state, appending
a lone `%` changes nothing: the dangling `%` flips the scanner into
directive state at the very end and is dropped without emitting a byte. -/
theorem C4_trailing_percent (win : Bool) (ctx : LogCtx) (fmt : List Char)
    (B : Nat) (h : scanRun .NORMAL fmt = .NORMAL) :
    clog_format win ctx (fmt ++ ['%']) B = clog_format win ctx fmt B := by
  rw [clog_format, clog_format, formatRun_append]
  rw [formatRun_fst, h]
  rfl

/-- Witness for C4: `"ab%"` expands exactly like `"ab"`. -/
theorem C4_trailing_percent_witness :
    scanRun .NORMAL ['a', 'b'] = .NORMAL ∧
    clog_format false ⟨['a'], 1, ['f'], ['M'], ['E'], ['x']⟩
        (['a', 'b'] ++ ['%']) 4096 =
      clog_format false ⟨['a'], 1, ['f'], ['M'], ['E'], ['x']⟩ ['a', 'b'] 4096 :=
  ⟨by decide, C4_trailing_percent false ⟨['a'], 1, ['f'], ['M'], ['E'], ['x']⟩
    ['a', 'b'] 4096 (by decide)⟩

/-- Claim C5: in directive state any selector outside the recognized set
(`%`, `l`, `e`, `g`, `n`, `f`, `m` in this no-time-support build) appends
nothing and returns the scanner to literal state; in particular the
template `"%z%m\n"` with user message `"x"` expands to `"x\n"`. -/
theorem C5_unknown_selector (c : Char)
    (hc : c ∉ ['%', 'l', 'e', 'g', 'n', 'f', 'm']) :
    (∀ (ctx : LogCtx) (b : CBuf), formatStep ctx .SUBST c b = (.NORMAL, b)) ∧
    (clog_format false ⟨['m', '.', 'c'], 7, ['f'], ['M'], ['E'], ['x']⟩
      ['%', 'z', '%', 'm', '\n'] 4096).content = ['x', '\n'] := by
  simp only [List.mem_cons, not_or] at hc
  obtain ⟨h1, h2, h3, h4, h5, h6, h7, -⟩ := hc
  constructor
  · intro ctx b
    rw [formatStep, if_neg h1, if_neg h2, if_neg h3, if_neg h4, if_neg h5,
      if_neg h6, if_neg h7]
  · rfl

/-- Witness for C5: the selector `z` is outside the recognized set, is
dropped without output, and `"%z%m\n"` renders as `"x\n"`. -/
theorem C5_unknown_selector_witness :
    'z' ∉ ['%', 'l', 'e', 'g', 'n', 'f', 'm'] ∧
    ((∀ (ctx : LogCtx) (b : CBuf),
        formatStep ctx .SUBST 'z' b = (.NORMAL, b)) ∧
      (clog_format false ⟨['m', '.', 'c'], 7, ['f'], ['M'], ['E'], ['x']⟩
        ['%', 'z', '%', 'm', '\n'] 4096).content = ['x', '\n']) :=
  ⟨by decide, C5_unknown_selector 'z' (by decide)⟩

/-- The `clog_level` enumeration of `clog.h`. -/
inductive clog_level
  | LEVEL_DEBUG
  | LEVEL_INFO
  | LEVEL_WARN
  | LEVEL_ERROR
  | LEVEL_NONE
  deriving DecidableEq

/-- The numeric value of each enumerator. -/
def clog_level.idx : clog_level → Nat
  | .LEVEL_DEBUG => 0
  | .LEVEL_INFO => 1
  | .LEVEL_WARN => 2
  | .LEVEL_ERROR => 3
  | .LEVEL_NONE => 4

/-- `CLOG_LEVEL_NAMES`: the four one-letter level labels, indexed by the
numeric level value.  (`LEVEL_NONE` has no entry; the logging macros never
pass it.) -/
def CLOG_LEVEL_NAMES : List (List Char) := [['D'], ['I'], ['W'], ['E']]

/-- The label `_clog_log` hands to `_clog_format`:
`CLOG_LEVEL_NAMES[level]`. -/
def levelName (l : clog_level) : List Char := CLOG_LEVEL_NAMES.getD l.idx []

/-- Claim C2: Scenario A — the template `"%l: %e: %m\n"` with severity
`LEVEL_ERROR`, module `"NET"` and rendered message `"connection lost"`
expands to exactly `"E: NET: connection lost\n"`; `%l` yields the
one-letter level code `E`. -/
theorem C2_scenario_A :
    (clog_format false
      { sfile := ['m', 'a', 'i', 'n', '.', 'c'], sline := 1,
        sfunction := ['f'], smodule := ['N', 'E', 'T'],
        level := levelName .LEVEL_ERROR,
        message := ['c', 'o', 'n', 'n', 'e', 'c', 't', 'i', 'o', 'n', ' ',
          'l', 'o', 's', 't'] }
      ['%', 'l', ':', ' ', '%', 'e', ':', ' ', '%', 'm', '\n'] 4096).content =
    ['E', ':', ' ', 'N', 'E', 'T', ':', ' ', 'c', 'o', 'n', 'n', 'e', 'c',
      't', 'i', 'o', 'n', ' ', 'l', 'o', 's', 't', '\n'] := by
  rfl

/-- The outcome of the message-rendering stage of `_clog_log`: the bytes
placed in `dynbuf`, the final `buf_size`, whether `dynbuf` migrated to the
heap (`dynbuf != buf`), how many `vsnprintf` passes ran, and whether the
`"Formatting failed (1)"` branch was taken. -/
structure ComposeResult where
  content : List Char
  bufSize : Nat
  onHeap : Bool
  passes : Nat
  failed : Bool
  deriving DecidableEq

/-- The probe-then-allocate rendering of the user message in `_clog_log`.
`msg` stands for the full `printf`-rendered text of the caller's format
and arguments; `vsnprintf` into a buffer of size `n` writes at most
`n - 1` of its bytes and returns the full required length, which the C
code compares against the buffer size (`result >= buf_size`). -/
def composeMessage (msg : List Char) : ComposeResult :=
  if 4096 ≤ msg.length then
    if msg.length + 1 ≤ msg.length then
      { content := [], bufSize := msg.length + 1, onHeap := true,
        passes := 2, failed := true }
    else
      { content := msg, bufSize := msg.length + 1, onHeap := true,
        passes := 2, failed := false }
  else
    { content := msg, bufSize := 4096, onHeap := false,
      passes := 1, failed := false }

/-- Claim C3: a user message whose rendered length reaches the 4096-byte
stack probe is reformatted exactly once into a heap buffer sized to the
measured length plus one and comes out whole; a shorter message stays in
the stack buffer with a single formatting pass and no heap allocation. -/
theorem C3_probe_then_allocate (msg : List Char) :
    (4096 ≤ msg.length →
      composeMessage msg =
        { content := msg, bufSize := msg.length + 1, onHeap := true,
          passes := 2, failed := false }) ∧
    (msg.length < 4096 →
      composeMessage msg =
        { content := msg, bufSize := 4096, onHeap := false,
          passes := 1, failed := false }) := by
  constructor
  · intro h
    rw [composeMessage, if_pos h, if_neg (by omega)]
  · intro h
    rw [composeMessage, if_neg (by omega)]

/-- Witness for C3: a 4096-byte message takes the heap path with buffer
size 4097, and `"hi"` takes the stack path. -/
theorem C3_probe_then_allocate_witness :
    (4096 ≤ (List.replicate 4096 'a').length ∧
      composeMessage (List.replicate 4096 'a') =
        { content := List.replicate 4096 'a',
          bufSize := (List.replicate 4096 'a').length + 1, onHeap := true,
          passes := 2, failed := false }) ∧
    ((['h', 'i'] : List Char).length < 4096 ∧
      composeMessage ['h', 'i'] =
        { content := ['h', 'i'], bufSize := 4096, onHeap := false,
          passes := 1, failed := false }) :=
  ⟨⟨by simp only [List.length_replicate]; omega,
      (C3_probe_then_allocate (List.replicate 4096 'a')).1
        (by simp only [List.length_replicate]; omega)⟩,
    ⟨by decide, (C3_probe_then_allocate ['h', 'i']).2 (by decide)⟩⟩

/-- The sink-relevant state of the global `_clog_logger` on a
`CLOG_FILE_SUPPORT` build: the log file descriptor and whether the console
output function pointer is non-NULL. -/
structure ClogLogger where
  fd : Int
  hasFun : Bool
  deriving DecidableEq

/-- `clog_init_file` on a `CLOG_FILE_SUPPORT` build.  `openResult` is what
`POSIX_OPEN(path, O_CREAT | O_WRONLY | O_APPEND, 0666)` returned: `-1` on
failure, a descriptor otherwise.  Yields the updated logger state and the
C return value. -/
def clog_init_file (openResult : Int) (logger : ClogLogger) :
    ClogLogger × Int :=
  if openResult = -1 then (logger, 1)
  else ({ fd := openResult, hasFun := false }, 1)

/-- Claim C9: on a file-support build `clog_init_file` returns 1 whether
the open succeeds or fails, so its return value cannot distinguish the
two cases; on success the console function pointer is set to NULL,
leaving the file descriptor as the only active sink. -/
theorem C9_init_file_return (openResult : Int) (logger : ClogLogger) :
    (clog_init_file openResult logger).2 = 1 ∧
    (openResult ≠ -1 →
      (clog_init_file openResult logger).1.hasFun = false ∧
      (clog_init_file openResult logger).1.fd = openResult) := by
  constructor
  · rw [clog_init_file]
    split <;> rfl
  · intro h
    rw [clog_init_file, if_neg h]
    exact ⟨rfl, rfl⟩

/-- Witness for C9: a successful open (descriptor 3) returns 1 and nulls
the console function pointer. -/
theorem C9_init_file_return_witness :
    (3 : Int) ≠ -1 ∧ (clog_init_file 3 ⟨0, true⟩).2 = 1 ∧
      (clog_init_file 3 ⟨0, true⟩).1.hasFun = false ∧
      (clog_init_file 3 ⟨0, true⟩).1.fd = 3 :=
  ⟨by decide, (C9_init_file_return 3 ⟨0, true⟩).1,
    ((C9_init_file_return 3 ⟨0, true⟩).2 (by decide)).1,
    ((C9_init_file_return 3 ⟨0, true⟩).2 (by decide)).2⟩

/-- The observable outcome of one `_clog_log` call. -/
inductive LogOutcome
  | delivered (line : List Char) (onHeap : Bool)
  | formatFailed1
  | formatFailed2
  deriving DecidableEq

/-- The value of the `message` pointer in `_clog_log` after the call to
`_clog_format`: the address of the buffer the formatted line was written
to.  `none` would model a NULL pointer; `_clog_format` returns either the
scratch buffer or a heap buffer it migrated to, and allocation is assumed
to succeed, exactly as in the C code, which never checks `malloc`. -/
def clog_format_ptr (win : Bool) (ctx : LogCtx) (fmt : List Char)
    (bufSize : Nat) : Option CBuf :=
  some (clog_format win ctx fmt bufSize)

/-- `_clog_log` on a build without time support, given the ideal rendered
text `msg` of the caller's printf template and arguments: render the
message with the probe-then-allocate strategy, bail out on the
`"Formatting failed (1)"` branch, otherwise expand the logger's template
into a fresh 4096-byte scratch buffer, check the result against NULL
(`"Formatting failed (2)"`), and deliver the line to the sink. -/
def clog_log (win : Bool) (fmt : List Char) (sfile : List Char)
    (sline : Int) (sfunction smodule : List Char) (level : clog_level)
    (msg : List Char) : LogOutcome :=
  if (composeMessage msg).failed then .formatFailed1
  else
    match clog_format_ptr win
      { sfile := sfile, sline := sline, sfunction := sfunction,
        smodule := smodule, level := levelName level,
        message := (composeMessage msg).content } fmt 4096 with
    | none => .formatFailed2
    | some b => .delivered b.content b.onHeap

/-- Claim C10: `_clog_format` always returns a non-NULL pointer (the
scratch buffer or the heap buffer it migrated to), so the
`"Formatting failed (2)"` branch of `_clog_log` is unreachable for every
input. -/
theorem C10_format_never_null (win : Bool) (ctx : LogCtx) (fmt : List Char)
    (B : Nat) (sfile : List Char) (sline : Int)
    (sfunction smodule : List Char) (level : clog_level) (msg : List Char) :
    clog_format_ptr win ctx fmt B ≠ none ∧
    clog_log win fmt sfile sline sfunction smodule level msg ≠
      .formatFailed2 := by
  constructor
  · simp [clog_format_ptr]
  · rw [clog_log]
    split
    · simp
    · simp [clog_format_ptr]
